import Mathlib

/- Shallow embedding of pypower.opf_execute (src/pypower/opf_execute.py).

Conventions of the embedding:
 - numpy 2-D arrays (bus / gen / branch tables) are embedded as total index
   functions Nat → Nat → α over a linear ordered field α; float arithmetic is
   modelled as exact field arithmetic, with the numpy constant pi passed in
   explicitly (the theorems about the angle-limit conversion instantiate it
   with Real.pi);
 - flat numpy vectors are embedded as List α, and numpy fancy-indexed
   assignment as a left fold of single-entry updates;
 - Python dicts with a fixed key set (the raw solver output) are embedded as
   structures with Option fields (presence of a key = Option.isSome); the
   dicts built by the result expander are embedded as association lists;
 - exceptions the Python code can raise on the modelled paths (KeyError,
   TypeError, UnboundLocalError) are embedded with Except;
 - the external collaborators (the three backend solvers, update_mupq,
   makeYbus + opf_consfcn, opf_costfcn, om.compute_cost) are consumed only
   through their contracts and are passed in as parameters. -/

abbrev Mat (α : Type) : Type := Nat → Nat → α

/-- Single-entry update of a matrix, modelling one numpy element assignment. -/
def matSet {α : Type} (m : Mat α) (r c : Nat) (v : α) : Mat α :=
  fun i j => if i = r ∧ j = c then v else m i j

/-- Fancy-indexed column assignment m[rows, c] = vals, modelled as a left fold
of single-entry updates (last write wins, as in numpy). -/
def matAssign {α : Type} (m : Mat α) (rows : List Nat) (c : Nat) (vals : List α) : Mat α :=
  (rows.zip vals).foldl (fun acc p => matSet acc p.1 c p.2) m

/-- Python slice v[a:b] of a flat vector (also numpy v[arange(a, b)] when the
range is in bounds, which the registry invariant of the spec guarantees). -/
def pySlice {α : Type} (v : List α) (a b : Nat) : List α :=
  (v.drop a).take (b - a)

/-- numpy .astype(int) truncation toward zero of a float value. -/
def truncToInt {α : Type} [LinearOrderedField α] [FloorRing α] (q : α) : Int :=
  if 0 ≤ q then ⌊q⌋ else ⌈q⌉

/-- Modelled from the spec: column position idx_bus.VM (solved voltage
magnitude column of the bus table); the index modules are not under src/. -/
def VM : Nat := 7

/-- Modelled from the spec: column position idx_gen.GEN_BUS (integer bus-index
column of the generator table); the index modules are not under src/. -/
def GEN_BUS : Nat := 0

/-- Modelled from the spec: column position idx_gen.VG (commanded voltage
magnitude column of the generator table); the index modules are not under
src/. -/
def VG : Nat := 5

/-- Modelled from the spec: column position idx_brch.MU_ANGMIN (lower
angle-limit multiplier column of the branch table); the index modules are not
under src/. -/
def MU_ANGMIN : Nat := 16

/-- Modelled from the spec: column position idx_brch.MU_ANGMAX (upper
angle-limit multiplier column of the branch table); the index modules are not
under src/. -/
def MU_ANGMAX : Nat := 17

/-- Value stored under raw['output']['alg']: either an integer algorithm code
(on which Python len() raises TypeError) or an array-like value with a
length. -/
inductive AlgVal (α : Type) where
  | code (n : Nat)
  | arr (l : List α)

/-- The raw['output'] sub-record. -/
structure OutputRec (α : Type) where
  alg : Option (AlgVal α)

/-- The raw solver output dict: keys the backends and opf_execute may place in
it, each embedded as an Option field (some = key present). -/
structure RawRec (α : Type) where
  output : Option (OutputRec α)
  xr : Option (List α)
  pimul : Option (List α)
  info : Option Int
  dg : Option (List α)
  g : Option (List α)
  df : Option (List α)
  d2f : Option (List α)

/-- A raw dict with no keys (Python raw = \x7b\x7d). -/
def RawRec.emptyRaw {α : Type} : RawRec α :=
  ⟨none, none, none, none, none, none, none, none⟩

/-- The solver results record as consumed by the post-solve corrector: the
physical tables, the flat solution vector x, the flat dual-multiplier vectors
per space, and the optional legacy derivative pair (results['dg'],
results['g']) produced by v4.0 MINOPF/TSPOPF backends (the source reads and
deletes the two keys together; they are modelled as one optional pair). -/
structure Results (α : Type) where
  bus : Mat α
  gen : Mat α
  branch : Mat α
  x : List α
  muVarL : List α
  muVarU : List α
  muLinL : List α
  muLinU : List α
  muNlnL : List α
  muNlnU : List α
  legacy : Option (List α × List α)

/-- The (results, success, raw) triple a backend solver returns. -/
structure SolverOut (α : Type) where
  results : Results α
  success : Bool
  raw : RawRec α

/-- Block index registry for one space: the ordered declared names and the
first / one-past-last flat-vector index of each name (spec section 3: name →
(first_index, last_index_exclusive)). -/
structure BlockReg where
  order : List String
  i1 : String → Nat
  iN : String → Nat

/-- Width om.getN reports for a name; by the registry invariant of the spec it
equals last_index_exclusive − first_index. -/
def BlockReg.N (r : BlockReg) (name : String) : Nat :=
  r.iN name - r.i1 name

/-- Python exceptions reachable on the modelled paths. -/
inductive PyErr where
  | keyError
  | typeError
  | unboundLocal
deriving DecidableEq

/-- Lines 72-83: default an unset AC algorithm code to 560 (MIPS), then the
deprecated-code remapping chain.  Python operator precedence makes each guard
alg == 100 | alg == 200 parse as the chained comparison
(alg == (100 ||| alg)) and ((100 ||| alg) == 200), with ||| the bitwise or;
the embedding reproduces that parse. -/
def resolveAlg (alg0 : Nat) : Nat :=
  let alg := if alg0 = 0 then 560 else alg0
  if alg = (100 ||| alg) ∧ (100 ||| alg) = 200 then 300
  else if alg = (120 ||| alg) ∧ (120 ||| alg) = 220 then 320
  else if alg = (140 ||| alg) ∧ (140 ||| alg) = 240 then 340
  else if alg = (160 ||| alg) ∧ (160 ||| alg) = 260 then 360
  else alg

/-- Line 95: the stderr diagnostic for a missing IPOPT dependency. -/
def ipoptMissingMsg (alg : Nat) : String :=
  "opf_execute: OPF_ALG " ++ toString alg ++ " requires IPOPT (see https://projects.coin-or.org/Ipopt/)"

/-- Line 97: the stderr diagnostic for an unrecognized algorithm code. -/
def invalidAlgMsg (alg : Nat) : String :=
  "opf_execute: OPF_ALG " ++ toString alg ++ " is not a valid algorithm code"

/-- Lines 61-97: backend selection.  Returns the stderr messages written, the
resolved algorithm code, and the solver output when one of the three backends
ran (none when the IPOPT dependency is absent or the code is unrecognized, in
which case results/success/raw stay unbound in the Python frame). -/
def dispatchSolve {α : Type} (dc : Bool) (alg0 : Nat) (haveIpopt : Bool)
    (dcS pipsS ipoptS : SolverOut α) : List String × Nat × Option (SolverOut α) :=
  if dc then ([], alg0, some dcS)
  else
    let alg := resolveAlg alg0
    if alg = 560 ∨ alg = 565 then ([], alg, some pipsS)
    else if alg = 580 then
      if haveIpopt then ([], alg, some ipoptS)
      else ([ipoptMissingMsg alg], alg, none)
    else ([invalidAlgMsg alg], alg, none)

/-- Lines 99-100: stamp the resolved algorithm code into raw['output']['alg']
when raw carries no (or an empty) entry.  Faithful to the Python evaluation
order: if 'output' is absent the guard is true and the assignment
raw['output']['alg'] = alg raises KeyError; if the stored entry is an integer
the guard evaluates len() on it and raises TypeError. -/
def stampAlg {α : Type} (raw : RawRec α) (alg : Nat) : Except PyErr (RawRec α) :=
  match raw.output with
  | none => Except.error PyErr.keyError
  | some out =>
    match out.alg with
    | none => Except.ok { raw with output := some { out with alg := some (AlgVal.code alg) } }
    | some (AlgVal.code _) => Except.error PyErr.typeError
    | some (AlgVal.arr l) =>
      if l.length = 0 then
        Except.ok { raw with output := some { out with alg := some (AlgVal.code alg) } }
      else Except.ok raw

/-- The raw['output']['alg'] entry of a raw dict, if any. -/
def algEntryOf {α : Type} (raw : RawRec α) : Option (AlgVal α) :=
  raw.output.bind (fun o => o.alg)

/-- Whether raw lacks any trace of an algorithm code: no output sub-record, no
alg key in it, or an empty one. -/
def lacksAlgEntry {α : Type} (raw : RawRec α) : Bool :=
  match algEntryOf raw with
  | none => true
  | some (AlgVal.code _) => false
  | some (AlgVal.arr l) => l.isEmpty

/-- Whether an alg entry is non-empty (an integer code, or a non-empty
array-like value). -/
def algValNonempty {α : Type} : AlgVal α → Bool
  | AlgVal.code _ => true
  | AlgVal.arr l => !l.isEmpty

/-- Lines 61-100: dispatch followed by the unconditional algorithm-code stamp.
When dispatch produced no solver output, line 99 reads the unbound local raw
and Python raises UnboundLocalError. -/
def dispatchAndStamp {α : Type} (dc : Bool) (alg0 : Nat) (haveIpopt : Bool)
    (dcS pipsS ipoptS : SolverOut α) :
    List String × Except PyErr (SolverOut α × Nat) :=
  match dispatchSolve dc alg0 haveIpopt dcS pipsS ipoptS with
  | (msgs, _, none) => (msgs, Except.error PyErr.unboundLocal)
  | (msgs, alg, some so) =>
    match stampAlg so.raw alg with
    | Except.error e => (msgs, Except.error e)
    | Except.ok raw1 => (msgs, Except.ok ({ so with raw := raw1 }, alg))

/-- Line 105: copy each generator row's connected-bus solved voltage magnitude
into its VG column (the right-hand side reads the pre-assignment gen table, as
numpy evaluates it before assigning). -/
def copyVB {α : Type} [LinearOrderedField α] [FloorRing α] (bus gen : Mat α) : Mat α :=
  fun i j => if j = VG then bus (truncToInt (gen i GEN_BUS)).toNat VM else gen i j

/-- Lines 109-110: the combined capability-curve multiplier for one of the
PQh/PQl blocks, lower-bound duals minus upper-bound duals over its range. -/
def pqMu {α : Type} [LinearOrderedField α] (ll : BlockReg) (name : String)
    (res : Results α) : List α :=
  List.zipWith (fun a b => a - b)
    (pySlice res.muLinL (ll.i1 name) (ll.iN name))
    (pySlice res.muLinU (ll.i1 name) (ll.iN name))

/-- Scaled multiplier vector of lines 143-144: the ang-range slice of a flat
dual vector, multiplied elementwise by pi / 180. -/
def angScaled {α : Type} [LinearOrderedField α] (piV : α) (ll : BlockReg)
    (mu : List α) : List α :=
  (pySlice mu (ll.i1 "ang") (ll.iN "ang")).map (fun m => m * piV / 180)

/-- Lines 140-144: when the ang linear-constraint block has nonzero width,
write the lower/upper multipliers of its range, scaled by pi / 180, into the
branch table's MU_ANGMIN / MU_ANGMAX columns at the rows listed by the iang
side channel. -/
def angStep {α : Type} [LinearOrderedField α] (piV : α) (ll : BlockReg)
    (iang : List Nat) (res : Results α) : Results α :=
  if 0 < ll.N "ang" then
    { res with branch := matAssign (matAssign res.branch iang MU_ANGMIN (angScaled piV ll res.muLinL)) iang MU_ANGMAX (angScaled piV ll res.muLinU) }
  else res

/-- Lines 115-133: the RETURN_RAW_DER derivative step of a successful AC
solve.  If the backend left legacy derivative keys in results, raw is rebuilt
as a fresh dict holding only them; then, unless raw already carries dg, the
constraint values/Jacobian are recomputed at the solved point (consfcn bundles
makeYbus + opf_consfcn together with the equality-then-inequality
concatenation and Jacobian transposition of lines 127-128); finally the cost
gradient/Hessian of opf_costfcn (costfcn) are stored. -/
def derivStep {α : Type} (consfcn costfcn : List α → List α × List α)
    (res : Results α) (raw : RawRec α) : RawRec α :=
  let rawA :=
    match res.legacy with
    | some p => { RawRec.emptyRaw with dg := some p.1, g := some p.2 }
    | none => raw
  let rawB :=
    if rawA.dg.isNone then
      { rawA with g := some (consfcn res.x).1, dg := some (consfcn res.x).2 }
    else rawA
  { rawB with df := some (costfcn res.x).1, d2f := some (costfcn res.x).2 }

/-- Lines 102-151: the post-solve corrector.  On success: AC-only voltage
copy-back, AC-only capability-curve multiplier combination (update_mupq is the
external upq parameter, already applied to baseMVA and Apqdata), AC-only
optional derivative step, deletion of the legacy derivative keys, and the
angle-limit multiplier conversion.  On failure: tables untouched; when the
problem is AC and RETURN_RAW_DER is set, the four derivative fields of raw are
filled with empty arrays. -/
def postSolveCorrector {α : Type} [LinearOrderedField α] [FloorRing α]
    (success dc rrd : Bool) (piV : α) (ll : BlockReg) (iang : List Nat)
    (upq : Mat α → List α → List α → Mat α)
    (consfcn costfcn : List α → List α × List α)
    (res : Results α) (raw : RawRec α) : Results α × RawRec α :=
  if success then
    let res1 := if dc then res else { res with gen := copyVB res.bus res.gen }
    let res2 :=
      if dc = false ∧ (0 < ll.N "PQh" ∨ 0 < ll.N "PQl") then
        { res1 with gen := upq res1.gen (pqMu ll "PQh" res1) (pqMu ll "PQl" res1) }
      else res1
    let raw1 := if dc = false ∧ rrd then derivStep consfcn costfcn res2 raw else raw
    let res3 := { res2 with legacy := none }
    (angStep piV ll iang res3, raw1)
  else
    (res,
      if dc = false ∧ rrd then
        { raw with dg := some [], g := some [], df := some [], d2f := some [] }
      else raw)

/-- A value stored by the result expander: numpy array slices for the
variable / constraint spaces, a Python scalar for the cost space. -/
inductive PyVal (α : Type) where
  | num (v : α)
  | arr (l : List α)
deriving DecidableEq

/-- The shared loop shape of lines 156-187: walk the declared names in order
and keep an entry for each name whose width is nonzero. -/
def expandWith {β : Type} (order : List String) (w : String → Nat) (f : String → β) :
    List (String × β) :=
  order.filterMap (fun n => if w n ≠ 0 then some (n, f n) else none)

/-- One slice-valued sub-mapping of the result expander (results['var']['val'],
the mu maps of var / lin / nln): each positive-width name maps to the [i1, iN)
slice of the given flat vector. -/
def expandSlices {α : Type} (reg : BlockReg) (v : List α) : List (String × PyVal α) :=
  expandWith reg.order reg.N (fun n => PyVal.arr (pySlice v (reg.i1 n) (reg.iN n)))

/-- Lines 183-187: the cost sub-mapping; each positive-width name maps to the
scalar om.compute_cost(results['x'], name), passed in as cc already applied to
the solved vector. -/
def expandCost {α : Type} (reg : BlockReg) (cc : String → α) : List (String × PyVal α) :=
  expandWith reg.order reg.N (fun n => PyVal.num (cc n))

/-- Lines 172-180: the nonlinear-constraint sub-mappings are produced only for
AC problems. -/
def expandNln {α : Type} (dc : Bool) (reg : BlockReg) (muL muU : List α) :
    Option (List (String × PyVal α) × List (String × PyVal α)) :=
  if dc then none else some (expandSlices reg muL, expandSlices reg muU)

/-- Lines 201-203: insert k zero placeholders into a flat vector immediately
after index nx. -/
def pwlInsert {α : Type} [Zero α] (v : List α) (nx k : Nat) : List α :=
  v.take nx ++ List.replicate k (0 : α) ++ v.drop nx

/-- Lines 192-203: the PWL dimension patch.  When the pwl1 side channel is
non-empty and the resolved algorithm code is neither 545 nor 550, insert
len(pwl1) zeros into both raw['xr'] and results['x'] after the end of the Pg
block (DC) or the Qg block (AC). -/
def pwlPatch {α : Type} [Zero α] (pwl1 : List Nat) (alg : Nat) (dc : Bool)
    (vv : BlockReg) (xr x : List α) : List α × List α :=
  if 0 < pwl1.length ∧ alg ≠ 545 ∧ alg ≠ 550 then
    let nx := if dc then vv.iN "Pg" else vv.iN "Qg"
    (pwlInsert xr nx pwl1.length, pwlInsert x nx pwl1.length)
  else (xr, x)

lemma matAssign_out {α : Type} (rows : List Nat) (vals : List α) (m : Mat α)
    (c i j : Nat) (h : i ∉ rows ∨ j ≠ c) : matAssign m rows c vals i j = m i j := by
  induction rows generalizing vals m with
  | nil => rfl
  | cons r t ih =>
    cases vals with
    | nil => rfl
    | cons v vs =>
      have hstep : matAssign m (r :: t) c (v :: vs) = matAssign (matSet m r c v) t c vs := rfl
      rw [hstep]
      have h' : i ∉ t ∨ j ≠ c := by
        rcases h with h | h
        · exact Or.inl (fun hm => h (List.mem_cons_of_mem _ hm))
        · exact Or.inr h
      rw [ih vs (matSet m r c v) h']
      have hne : ¬(i = r ∧ j = c) := by
        rintro ⟨rfl, rfl⟩
        rcases h with h | h
        · exact h (List.mem_cons_self _ _)
        · exact h rfl
      simp [matSet, hne]

lemma matAssign_get {α : Type} (rows : List Nat) (vals : List α) (m : Mat α)
    (c j : Nat) (d : α) (hnd : rows.Nodup) (hj : j < rows.length)
    (hlen : rows.length ≤ vals.length) :
    matAssign m rows c vals (rows.getD j 0) c = vals.getD j d := by
  induction rows generalizing vals m j with
  | nil => simp at hj
  | cons r t ih =>
    cases vals with
    | nil => simp at hlen
    | cons v vs =>
      have hstep : matAssign m (r :: t) c (v :: vs) = matAssign (matSet m r c v) t c vs := rfl
      rw [hstep]
      cases j with
      | zero =>
        have hrt : r ∉ t := (List.nodup_cons.mp hnd).1
        rw [show (r :: t).getD 0 0 = r from rfl, show (v :: vs).getD 0 d = v from rfl]
        rw [matAssign_out t vs (matSet m r c v) c r c (Or.inl hrt)]
        simp [matSet]
      | succ n =>
        rw [show (r :: t).getD (n + 1) 0 = t.getD n 0 from rfl,
            show (v :: vs).getD (n + 1) d = vs.getD n d from rfl]
        exact ih vs (matSet m r c v) n (List.nodup_cons.mp hnd).2
          (Nat.lt_of_succ_lt_succ hj) (Nat.le_of_succ_le_succ hlen)

lemma getD_map_lt {α β : Type} (f : α → β) (l : List α) (j : Nat) (hj : j < l.length)
    (d : β) (d' : α) : (l.map f).getD j d = f (l.getD j d') := by
  induction l generalizing j with
  | nil => simp at hj
  | cons a t ih =>
    cases j with
    | zero => rfl
    | succ n => exact ih n (Nat.lt_of_succ_lt_succ hj)

lemma getD_drop {α : Type} (l : List α) (a j : Nat) (d : α) :
    (l.drop a).getD j d = l.getD (a + j) d := by
  induction l generalizing a with
  | nil => simp
  | cons x t ih =>
    cases a with
    | zero => simp
    | succ n =>
      rw [show (x :: t).drop (n + 1) = t.drop n from rfl, ih n]
      have harith : n + 1 + j = (n + j) + 1 := by omega
      rw [harith]
      rfl

lemma getD_take_lt {α : Type} (l : List α) (n j : Nat) (hj : j < n) (d : α) :
    (l.take n).getD j d = l.getD j d := by
  induction l generalizing n j with
  | nil => simp
  | cons x t ih =>
    cases n with
    | zero => exact absurd hj (Nat.not_lt_zero j)
    | succ m =>
      cases j with
      | zero => rfl
      | succ i => exact ih m i (Nat.lt_of_succ_lt_succ hj)

lemma getD_pySlice {α : Type} (v : List α) (a b j : Nat) (hj : j < b - a) (d : α) :
    (pySlice v a b).getD j d = v.getD (a + j) d := by
  unfold pySlice
  rw [getD_take_lt _ _ _ hj, getD_drop]

lemma pySlice_length {α : Type} (v : List α) (a b : Nat) (hb : b ≤ v.length) :
    (pySlice v a b).length = b - a := by
  unfold pySlice
  rw [List.length_take, List.length_drop]
  omega

lemma expandWith_cons {β : Type} (a : String) (t : List String) (w : String → Nat)
    (f : String → β) :
    expandWith (a :: t) w f =
      if w a ≠ 0 then (a, f a) :: expandWith t w f else expandWith t w f := by
  unfold expandWith
  by_cases hw : w a ≠ 0
  · simp [hw, List.filterMap_cons]
  · simp [hw, List.filterMap_cons]

lemma lookup_expandWith_not_mem {β : Type} (order : List String) (w : String → Nat)
    (f : String → β) (name : String) (hn : name ∉ order) :
    (expandWith order w f).lookup name = none := by
  induction order with
  | nil => rfl
  | cons a t ih =>
    have hna : name ≠ a := by
      intro h
      exact hn (by simp [h])
    have hnt : name ∉ t := by
      intro h
      exact hn (by simp [h])
    have hbeq : (name == a) = false := beq_eq_false_iff_ne.mpr hna
    rw [expandWith_cons]
    by_cases hw : w a ≠ 0
    · simp only [if_pos hw, List.lookup, hbeq]
      exact ih hnt
    · simp only [if_neg hw]
      exact ih hnt

lemma lookup_expandWith {β : Type} (order : List String) (w : String → Nat)
    (f : String → β) (name : String) (hnd : order.Nodup) (hn : name ∈ order) :
    (expandWith order w f).lookup name =
      if w name ≠ 0 then some (f name) else none := by
  induction order with
  | nil => simp at hn
  | cons a t ih =>
    rcases List.mem_cons.mp hn with rfl | hmem
    · have hat : name ∉ t := (List.nodup_cons.mp hnd).1
      rw [expandWith_cons]
      by_cases hw : w name ≠ 0
      · simp only [if_pos hw, List.lookup, beq_self_eq_true]
      · simp only [if_neg hw]
        rw [lookup_expandWith_not_mem t w f name hat]
    · have hna : name ≠ a := fun h => ((List.nodup_cons.mp hnd).1) (h ▸ hmem)
      have hbeq : (name == a) = false := beq_eq_false_iff_ne.mpr hna
      rw [expandWith_cons]
      by_cases hw : w a ≠ 0
      · simp only [if_pos hw, List.lookup, hbeq]
        exact ih (List.nodup_cons.mp hnd).2 hmem
      · simp only [if_neg hw]
        exact ih (List.nodup_cons.mp hnd).2 hmem

lemma pwlInsert_length {α : Type} [Zero α] (v : List α) (nx k : Nat) (h : nx ≤ v.length) :
    (pwlInsert v nx k).length = v.length + k := by
  unfold pwlInsert
  rw [List.length_append, List.length_append, List.length_take, List.length_replicate,
    List.length_drop]
  omega

lemma pwlInsert_take {α : Type} [Zero α] (v : List α) (nx k : Nat) (h : nx ≤ v.length) :
    (pwlInsert v nx k).take nx = v.take nx := by
  unfold pwlInsert
  have h1 : (v.take nx).length = nx := by
    rw [List.length_take]
    omega
  rw [List.append_assoc]
  exact List.take_left' h1

lemma pwlInsert_drop {α : Type} [Zero α] (v : List α) (nx k : Nat) (h : nx ≤ v.length) :
    (pwlInsert v nx k).drop (nx + k) = v.drop nx := by
  unfold pwlInsert
  have h1 : (v.take nx ++ List.replicate k (0 : α)).length = nx + k := by
    rw [List.length_append, List.length_take, List.length_replicate]
    omega
  exact List.drop_left' h1

lemma pwlInsert_mid {α : Type} [Zero α] (v : List α) (nx k : Nat) (h : nx ≤ v.length) :
    pySlice (pwlInsert v nx k) nx (nx + k) = List.replicate k (0 : α) := by
  unfold pySlice pwlInsert
  have h1 : (v.take nx).length = nx := by
    rw [List.length_take]
    omega
  have h2 : nx + k - nx = k := by omega
  rw [h2, List.append_assoc, List.drop_left' h1]
  exact List.take_left' (List.length_replicate k (0 : α))

/-- C2: the deprecated-algorithm-code remapping of lines 75-83 never fires.
Because | binds tighter than == in Python, each guard parses as the chained
comparison alg == (100 | alg) == 200 (and likewise for the other pairs), which
is unsatisfiable, so contrary to the claim (and to the comment above the
source lines) none of the eight deprecated codes is remapped: evaluating the
dispatcher's code resolution at each of them returns it unchanged. -/
theorem resolveAlg_remap_dead :
    resolveAlg 100 = 100 ∧ resolveAlg 200 = 200 ∧ resolveAlg 120 = 120 ∧
    resolveAlg 220 = 220 ∧ resolveAlg 140 = 140 ∧ resolveAlg 240 = 240 ∧
    resolveAlg 160 = 160 ∧ resolveAlg 260 = 260 := by
  decide

/-- C6: with an empty pwl1 side channel the PWL dimension patch is a no-op:
the raw and structured solution vectors come back unchanged in content and
length, whatever the algorithm code, problem type and registry are. -/
theorem pwlPatch_empty_noop {α : Type} [Zero α] (alg : Nat) (dc : Bool)
    (vv : BlockReg) (xr x : List α) :
    pwlPatch [] alg dc vv xr x = (xr, x) := by
  simp [pwlPatch]

/-- C7: when the patch fires (non-empty pwl1 of length k and resolved code
neither 545 nor 550), both the raw and the structured solution vector grow by
exactly k entries; with nx the end of the Pg block (DC) or the Qg block (AC),
positions [nx, nx + k) of each patched vector hold k zeros, the first nx
entries are unchanged in place, and the remaining entries follow in their
original order immediately after the inserted window. -/
theorem pwlPatch_insert_spec {α : Type} [Zero α] (pwl1 : List Nat) (alg : Nat)
    (dc : Bool) (vv : BlockReg) (xr x : List α) (nx : Nat)
    (hnx : nx = if dc then vv.iN "Pg" else vv.iN "Qg")
    (hk : 0 < pwl1.length) (h545 : alg ≠ 545) (h550 : alg ≠ 550)
    (hxr : nx ≤ xr.length) (hx : nx ≤ x.length) :
    ((pwlPatch pwl1 alg dc vv xr x).1.length = xr.length + pwl1.length ∧
      (pwlPatch pwl1 alg dc vv xr x).1.take nx = xr.take nx ∧
      (pwlPatch pwl1 alg dc vv xr x).1.drop (nx + pwl1.length) = xr.drop nx ∧
      pySlice (pwlPatch pwl1 alg dc vv xr x).1 nx (nx + pwl1.length) =
        List.replicate pwl1.length (0 : α)) ∧
    ((pwlPatch pwl1 alg dc vv xr x).2.length = x.length + pwl1.length ∧
      (pwlPatch pwl1 alg dc vv xr x).2.take nx = x.take nx ∧
      (pwlPatch pwl1 alg dc vv xr x).2.drop (nx + pwl1.length) = x.drop nx ∧
      pySlice (pwlPatch pwl1 alg dc vv xr x).2 nx (nx + pwl1.length) =
        List.replicate pwl1.length (0 : α)) := by
  have hguard : 0 < pwl1.length ∧ alg ≠ 545 ∧ alg ≠ 550 := ⟨hk, h545, h550⟩
  have hpatch : pwlPatch pwl1 alg dc vv xr x =
      (pwlInsert xr nx pwl1.length, pwlInsert x nx pwl1.length) := by
    unfold pwlPatch
    rw [if_pos hguard, ← hnx]
  rw [hpatch]
  exact ⟨⟨pwlInsert_length xr nx _ hxr, pwlInsert_take xr nx _ hxr,
    pwlInsert_drop xr nx _ hxr, pwlInsert_mid xr nx _ hxr⟩,
    ⟨pwlInsert_length x nx _ hx, pwlInsert_take x nx _ hx,
    pwlInsert_drop x nx _ hx, pwlInsert_mid x nx _ hx⟩⟩

/-- Concrete interior-point inputs used by the PWL patch witness. -/
def exRegPwl : BlockReg :=
  ⟨["Pg", "Qg"], fun _ => 0, fun n => if n = "Pg" then 1 else 2⟩

/-- C7 witness: the patch theorem applied at a concrete DC invocation with a
one-element pwl1 list, two-entry vectors and algorithm code 200. -/
theorem pwlPatch_insert_spec_wit :
    ((pwlPatch [7] 200 true exRegPwl ([4, 5] : List ℚ) ([6, 8] : List ℚ)).1.length = 3 ∧
      (pwlPatch [7] 200 true exRegPwl ([4, 5] : List ℚ) ([6, 8] : List ℚ)).1.take 1 =
        ([4, 5] : List ℚ).take 1 ∧
      (pwlPatch [7] 200 true exRegPwl ([4, 5] : List ℚ) ([6, 8] : List ℚ)).1.drop 2 =
        ([4, 5] : List ℚ).drop 1 ∧
      pySlice (pwlPatch [7] 200 true exRegPwl ([4, 5] : List ℚ) ([6, 8] : List ℚ)).1 1 2 =
        List.replicate 1 (0 : ℚ)) ∧
    ((pwlPatch [7] 200 true exRegPwl ([4, 5] : List ℚ) ([6, 8] : List ℚ)).2.length = 3 ∧
      (pwlPatch [7] 200 true exRegPwl ([4, 5] : List ℚ) ([6, 8] : List ℚ)).2.take 1 =
        ([6, 8] : List ℚ).take 1 ∧
      (pwlPatch [7] 200 true exRegPwl ([4, 5] : List ℚ) ([6, 8] : List ℚ)).2.drop 2 =
        ([6, 8] : List ℚ).drop 1 ∧
      pySlice (pwlPatch [7] 200 true exRegPwl ([4, 5] : List ℚ) ([6, 8] : List ℚ)).2 1 2 =
        List.replicate 1 (0 : ℚ)) :=
  pwlPatch_insert_spec [7] 200 true exRegPwl [4, 5] [6, 8] 1 (by decide) (by decide)
    (by decide) (by decide) (by decide) (by decide)

/-- Concrete registry used by the expander examples: name a has range [0, 2)
(width 2), name b has range [2, 2) (width 0). -/
def exVarReg : BlockReg :=
  ⟨["a", "b"], fun n => if n = "b" then 2 else 0, fun _ => 2⟩

/-- Concrete flat vector for the expander examples. -/
def exVarVec : List ℚ := [10, 20, 30]

/-- Concrete cost evaluator (om.compute_cost applied to the solved vector) for
the expander examples. -/
def exCostCc : String → ℚ := fun _ => 5

/-- C5 counterexample: the cost space does not store slices.  At the concrete
registry declaring name a with range [0, 2) (width 2) and a cost evaluator
returning 5, the cost sub-mapping stores the scalar 5 under a, and no array
value (in particular no length-2 slice of any flat vector) appears under that
key, contradicting the claim's slice reading for the cost space. -/
theorem expandCost_scalar_cex :
    (expandCost exVarReg exCostCc).lookup "a" = some (PyVal.num (5 : ℚ)) ∧
    ¬ (∃ l : List ℚ, (expandCost exVarReg exCostCc).lookup "a" = some (PyVal.arr l) ∧
        l.length = 2) := by
  constructor
  · rfl
  · rintro ⟨l, hl, -⟩
    rw [show (expandCost exVarReg exCostCc).lookup "a" = some (PyVal.num (5 : ℚ)) from rfl] at hl
    simp at hl

/-- C5 (amended): in the variable / linear / nonlinear sub-mappings every
declared name of positive width appears with exactly the [i1, iN) slice of the
corresponding flat vector, whose length is iN − i1 whenever the registry range
lies inside the vector; in the cost sub-mapping a positive-width name appears
with the scalar computed by the model's per-name cost evaluator at the solved
point (not a slice); a zero-width name produces no key in either kind of
sub-mapping; and the nonlinear sub-mappings are produced only when the problem
is not DC. -/
theorem expander_blocks_amended {α : Type} (reg : BlockReg) (v : List α)
    (cc : String → α) (muL muU : List α) (name : String)
    (hnd : reg.order.Nodup) (hn : name ∈ reg.order) :
    (0 < reg.N name →
      (expandSlices reg v).lookup name =
        some (PyVal.arr (pySlice v (reg.i1 name) (reg.iN name)))) ∧
    (0 < reg.N name → reg.iN name ≤ v.length →
      (pySlice v (reg.i1 name) (reg.iN name)).length = reg.iN name - reg.i1 name) ∧
    (reg.N name = 0 → (expandSlices reg v).lookup name = none) ∧
    (0 < reg.N name →
      (expandCost reg cc).lookup name = some (PyVal.num (cc name))) ∧
    (reg.N name = 0 → (expandCost reg cc).lookup name = none) ∧
    expandNln true reg muL muU = none := by
  refine ⟨?_, ?_, ?_, ?_, ?_, rfl⟩
  · intro hpos
    have hne : reg.N name ≠ 0 := Nat.pos_iff_ne_zero.mp hpos
    unfold expandSlices
    rw [lookup_expandWith reg.order reg.N _ name hnd hn, if_pos hne]
  · intro _ hin
    exact pySlice_length v _ _ hin
  · intro hz
    have hne : ¬ reg.N name ≠ 0 := fun hne => hne hz
    unfold expandSlices
    rw [lookup_expandWith reg.order reg.N _ name hnd hn, if_neg hne]
  · intro hpos
    have hne : reg.N name ≠ 0 := Nat.pos_iff_ne_zero.mp hpos
    unfold expandCost
    rw [lookup_expandWith reg.order reg.N _ name hnd hn, if_pos hne]
  · intro hz
    have hne : ¬ reg.N name ≠ 0 := fun hne => hne hz
    unfold expandCost
    rw [lookup_expandWith reg.order reg.N _ name hnd hn, if_neg hne]

/-- C5 witness: the amended expander theorem applied at the concrete registry
(width-2 name a, width-0 name b), flat vector [10, 20, 30] and cost evaluator
returning 5. -/
theorem expander_blocks_amended_wit :
    (expandSlices exVarReg exVarVec).lookup "a" =
      some (PyVal.arr (pySlice exVarVec (exVarReg.i1 "a") (exVarReg.iN "a"))) ∧
    (pySlice exVarVec (exVarReg.i1 "a") (exVarReg.iN "a")).length =
      exVarReg.iN "a" - exVarReg.i1 "a" ∧
    (expandSlices exVarReg exVarVec).lookup "b" = none ∧
    (expandCost exVarReg exCostCc).lookup "a" = some (PyVal.num (exCostCc "a")) ∧
    (expandCost exVarReg exCostCc).lookup "b" = none ∧
    expandNln true exVarReg exVarVec exVarVec = none :=
  ⟨(expander_blocks_amended exVarReg exVarVec exCostCc exVarVec exVarVec "a"
      (by decide) (by decide)).1 (by decide),
   (expander_blocks_amended exVarReg exVarVec exCostCc exVarVec exVarVec "a"
      (by decide) (by decide)).2.1 (by decide) (by decide),
   (expander_blocks_amended exVarReg exVarVec exCostCc exVarVec exVarVec "b"
      (by decide) (by decide)).2.2.1 (by decide),
   (expander_blocks_amended exVarReg exVarVec exCostCc exVarVec exVarVec "a"
      (by decide) (by decide)).2.2.2.1 (by decide),
   (expander_blocks_amended exVarReg exVarVec exCostCc exVarVec exVarVec "b"
      (by decide) (by decide)).2.2.2.2.1 (by decide),
   (expander_blocks_amended exVarReg exVarVec exCostCc exVarVec exVarVec "a"
      (by decide) (by decide)).2.2.2.2.2⟩

/-- Concrete solver results over the rationals for dispatcher and corrector
examples: zero tables, empty vectors, no legacy derivative fields. -/
def exResultsQ : Results ℚ :=
  ⟨fun _ _ => 0, fun _ _ => 0, fun _ _ => 0, [], [], [], [], [], [], [], none⟩

/-- Concrete raw record whose output sub-record carries no alg entry. -/
def exRawQ : RawRec ℚ :=
  { RawRec.emptyRaw with output := some ⟨none⟩ }

/-- Concrete backend output triple for dispatcher examples. -/
def exSolverOutQ : SolverOut ℚ :=
  ⟨exResultsQ, true, exRawQ⟩

/-- C1 counterexample: at the concrete AC invocation with unrecognized
algorithm code 999 the dispatcher does write the diagnostic naming the code,
but the call then raises UnboundLocalError when line 99 reads the
never-assigned raw, instead of completing and handing a failure back to the
caller as the claim states. -/
theorem dispatch_failure_raises_cex :
    dispatchAndStamp false 999 false exSolverOutQ exSolverOutQ exSolverOutQ =
      ([invalidAlgMsg 999], Except.error PyErr.unboundLocal) := by
  rfl

/-- C1 (amended): for every AC invocation whose resolved algorithm code
selects the external NLP backend while its dependency is absent, and for every
AC invocation with an unrecognized resolved code, the dispatcher emits the
diagnostic naming the problem (the missing IPOPT dependency, resp. the invalid
code), but the invocation then raises UnboundLocalError at the post-dispatch
stamping step, which reads the never-assigned raw; it does not complete and
return a failure value to the caller. -/
theorem dispatch_failure_diag_then_raise {α : Type} (alg0 : Nat) (haveIpopt : Bool)
    (dcS pipsS ipoptS : SolverOut α)
    (h560 : resolveAlg alg0 ≠ 560) (h565 : resolveAlg alg0 ≠ 565) :
    (resolveAlg alg0 = 580 → haveIpopt = false →
      dispatchAndStamp false alg0 haveIpopt dcS pipsS ipoptS =
        ([ipoptMissingMsg (resolveAlg alg0)], Except.error PyErr.unboundLocal)) ∧
    (resolveAlg alg0 ≠ 580 →
      dispatchAndStamp false alg0 haveIpopt dcS pipsS ipoptS =
        ([invalidAlgMsg (resolveAlg alg0)], Except.error PyErr.unboundLocal)) := by
  have hno : ¬(resolveAlg alg0 = 560 ∨ resolveAlg alg0 = 565) := by
    rintro (h | h)
    · exact h560 h
    · exact h565 h
  constructor
  · intro h580 hip
    subst hip
    simp [dispatchAndStamp, dispatchSolve, hno, h580]
  · intro h580
    simp [dispatchAndStamp, dispatchSolve, hno, h580]

/-- C1 witness: the amended dispatcher theorem applied at the concrete AC
invocation requesting the IPOPT backend (code 580) with the dependency
absent. -/
theorem dispatch_failure_diag_then_raise_wit :
    dispatchAndStamp false 580 false exSolverOutQ exSolverOutQ exSolverOutQ =
      ([ipoptMissingMsg (resolveAlg 580)], Except.error PyErr.unboundLocal) :=
  (dispatch_failure_diag_then_raise 580 false exSolverOutQ exSolverOutQ exSolverOutQ
    (by decide) (by decide)).1 (by decide) rfl

/-- C3 (amended): the stamping guarantee holds of the raw as of lines 99-100,
not of the returned raw.  Whenever the stamping step completes (with no output
sub-record the assignment raises KeyError and with an integer entry the len()
guard raises TypeError, so those invocations return nothing), the post-stamp
raw carries a non-empty raw['output']['alg'] entry: the resolved code is
stamped exactly when the incoming raw lacked any (or had an empty) entry, and
a raw already carrying a non-empty entry is passed through unchanged.  A later
RETURN_RAW_DER legacy rebuild can discard the entry before the return, so the
returned raw does not always expose it (see the counterexample below). -/
theorem stampAlg_traceability {α : Type} (raw : RawRec α) (alg : Nat)
    (rawOut : RawRec α) (h : stampAlg raw alg = Except.ok rawOut) :
    (lacksAlgEntry raw = true → algEntryOf rawOut = some (AlgVal.code alg)) ∧
    (lacksAlgEntry raw = false → rawOut = raw) ∧
    (∃ v, algEntryOf rawOut = some v ∧ algValNonempty v = true) := by
  cases hout : raw.output with
  | none =>
    simp [stampAlg, hout] at h
  | some out =>
    cases halg : out.alg with
    | none =>
      simp only [stampAlg, hout, halg, Except.ok.injEq] at h
      subst h
      refine ⟨fun _ => ?_, fun hl => ?_, ⟨AlgVal.code alg, ?_, rfl⟩⟩
      · simp [algEntryOf]
      · exfalso
        simp [lacksAlgEntry, algEntryOf, hout, halg] at hl
      · simp [algEntryOf]
    | some v =>
      cases v with
      | code n =>
        simp [stampAlg, hout, halg] at h
      | arr l =>
        cases l with
        | nil =>
          simp only [stampAlg, hout, halg, List.length_nil, Except.ok.injEq] at h
          rw [if_pos trivial] at h
          injection h with h1
          subst h1
          refine ⟨fun _ => ?_, fun hl => ?_, ⟨AlgVal.code alg, ?_, rfl⟩⟩
          · simp [algEntryOf]
          · exfalso
            simp [lacksAlgEntry, algEntryOf, hout, halg] at hl
          · simp [algEntryOf]
        | cons a t =>
          simp only [stampAlg, hout, halg, List.length_cons] at h
          rw [if_neg (by omega)] at h
          injection h with h1
          subst h1
          refine ⟨fun hlk => ?_, fun _ => rfl, ⟨AlgVal.arr (a :: t), ?_, rfl⟩⟩
          · exfalso
            simp [lacksAlgEntry, algEntryOf, hout, halg] at hlk
          · simp [algEntryOf, hout, halg]

/-- Concrete stamped raw record: the output of the stamping step on exRawQ
with resolved code 560. -/
def exRawStamped : RawRec ℚ :=
  { RawRec.emptyRaw with output := some ⟨some (AlgVal.code 560)⟩ }

/-- C3 witness: the stamping theorem applied to the concrete raw whose output
sub-record has no alg entry, with resolved code 560. -/
theorem stampAlg_traceability_wit :
    (lacksAlgEntry exRawQ = true → algEntryOf exRawStamped = some (AlgVal.code 560)) ∧
    (lacksAlgEntry exRawQ = false → exRawStamped = exRawQ) ∧
    (∃ v, algEntryOf exRawStamped = some v ∧ algValNonempty v = true) :=
  stampAlg_traceability exRawQ 560 exRawStamped rfl

/-- Concrete empty registry for corrector examples. -/
def exReg0 : BlockReg :=
  ⟨[], fun _ => 0, fun _ => 0⟩

/-- Concrete external update_mupq stand-in for corrector examples: writes no
column at all, in particular preserving VG. -/
def exUpq : Mat ℚ → List ℚ → List ℚ → Mat ℚ :=
  fun g _ _ => g

/-- Concrete external constraint evaluator stand-in for corrector examples. -/
def exConsfcn : List ℚ → List ℚ × List ℚ :=
  fun _ => ([], [])

/-- Concrete external cost evaluator stand-in for corrector examples. -/
def exCostfcn : List ℚ → List ℚ × List ℚ :=
  fun _ => ([3], [4])

/-- C9: on an unsuccessful solve the corrector applies no physical correction
— the bus, gen and branch tables come back untouched — and when the problem is
AC and RETURN_RAW_DER is set, the four derivative fields of raw are populated
with empty arrays rather than left absent. -/
theorem corrector_failure_path {α : Type} [LinearOrderedField α] [FloorRing α]
    (success dc rrd : Bool) (piV : α) (ll : BlockReg) (iang : List Nat)
    (upq : Mat α → List α → List α → Mat α) (consfcn costfcn : List α → List α × List α)
    (res : Results α) (raw : RawRec α) (hs : success = false) :
    (postSolveCorrector success dc rrd piV ll iang upq consfcn costfcn res raw).1.bus = res.bus ∧
    (postSolveCorrector success dc rrd piV ll iang upq consfcn costfcn res raw).1.gen = res.gen ∧
    (postSolveCorrector success dc rrd piV ll iang upq consfcn costfcn res raw).1.branch = res.branch ∧
    (dc = false → rrd = true →
      (postSolveCorrector success dc rrd piV ll iang upq consfcn costfcn res raw).2.dg = some [] ∧
      (postSolveCorrector success dc rrd piV ll iang upq consfcn costfcn res raw).2.g = some [] ∧
      (postSolveCorrector success dc rrd piV ll iang upq consfcn costfcn res raw).2.df = some [] ∧
      (postSolveCorrector success dc rrd piV ll iang upq consfcn costfcn res raw).2.d2f = some []) := by
  subst hs
  refine ⟨?_, ?_, ?_, ?_⟩
  · simp [postSolveCorrector]
  · simp [postSolveCorrector]
  · simp [postSolveCorrector]
  · intro hdc hr
    subst hdc
    subst hr
    simp [postSolveCorrector]

/-- C9 witness: the failure-path theorem applied at a concrete unsuccessful AC
invocation with RETURN_RAW_DER set. -/
theorem corrector_failure_path_wit :
    (postSolveCorrector false false true (0 : ℚ) exReg0 [] exUpq exConsfcn exCostfcn
        exResultsQ exRawQ).1.bus = exResultsQ.bus ∧
    (postSolveCorrector false false true (0 : ℚ) exReg0 [] exUpq exConsfcn exCostfcn
        exResultsQ exRawQ).1.gen = exResultsQ.gen ∧
    (postSolveCorrector false false true (0 : ℚ) exReg0 [] exUpq exConsfcn exCostfcn
        exResultsQ exRawQ).1.branch = exResultsQ.branch ∧
    (false = false → true = true →
      (postSolveCorrector false false true (0 : ℚ) exReg0 [] exUpq exConsfcn exCostfcn
          exResultsQ exRawQ).2.dg = some [] ∧
      (postSolveCorrector false false true (0 : ℚ) exReg0 [] exUpq exConsfcn exCostfcn
          exResultsQ exRawQ).2.g = some [] ∧
      (postSolveCorrector false false true (0 : ℚ) exReg0 [] exUpq exConsfcn exCostfcn
          exResultsQ exRawQ).2.df = some [] ∧
      (postSolveCorrector false false true (0 : ℚ) exReg0 [] exUpq exConsfcn exCostfcn
          exResultsQ exRawQ).2.d2f = some []) :=
  corrector_failure_path false false true (0 : ℚ) exReg0 [] exUpq exConsfcn exCostfcn
    exResultsQ exRawQ rfl

/-- C10: on a successful AC solve with RETURN_RAW_DER set whose results carry
the legacy derivative pair, the corrector rebuilds raw from scratch: the
returned raw holds exactly the four derivative fields — dg and g moved over
from results, df and d2f computed by the cost evaluator at the solved point —
while every field the backend or the just-run stamping step had placed in raw
(output with the algorithm-code stamp, xr, pimul, info) is discarded. -/
theorem corrector_raw_rebuild {α : Type} [LinearOrderedField α] [FloorRing α]
    (rrd : Bool) (piV : α) (ll : BlockReg) (iang : List Nat)
    (upq : Mat α → List α → List α → Mat α) (consfcn costfcn : List α → List α × List α)
    (res : Results α) (raw : RawRec α) (dgv gv : List α)
    (hrrd : rrd = true) (hleg : res.legacy = some (dgv, gv)) :
    (postSolveCorrector true false rrd piV ll iang upq consfcn costfcn res raw).2.output = none ∧
    (postSolveCorrector true false rrd piV ll iang upq consfcn costfcn res raw).2.xr = none ∧
    (postSolveCorrector true false rrd piV ll iang upq consfcn costfcn res raw).2.pimul = none ∧
    (postSolveCorrector true false rrd piV ll iang upq consfcn costfcn res raw).2.info = none ∧
    (postSolveCorrector true false rrd piV ll iang upq consfcn costfcn res raw).2.dg = some dgv ∧
    (postSolveCorrector true false rrd piV ll iang upq consfcn costfcn res raw).2.g = some gv ∧
    (postSolveCorrector true false rrd piV ll iang upq consfcn costfcn res raw).2.df =
      some (costfcn res.x).1 ∧
    (postSolveCorrector true false rrd piV ll iang upq consfcn costfcn res raw).2.d2f =
      some (costfcn res.x).2 := by
  subst hrrd
  by_cases hpq : 0 < ll.N "PQh" ∨ 0 < ll.N "PQl"
  · simp [postSolveCorrector, derivStep, RawRec.emptyRaw, hleg, hpq]
  · simp [postSolveCorrector, derivStep, RawRec.emptyRaw, hleg, hpq]

/-- Concrete results record carrying the legacy derivative pair. -/
def exResLeg : Results ℚ :=
  { exResultsQ with legacy := some ([1], [2]) }

/-- C10 witness: the raw-rebuild theorem applied at a concrete successful AC
invocation whose results carry the legacy pair ([1], [2]). -/
theorem corrector_raw_rebuild_wit :
    (postSolveCorrector true false true (0 : ℚ) exReg0 [] exUpq exConsfcn exCostfcn
        exResLeg exRawQ).2.output = none ∧
    (postSolveCorrector true false true (0 : ℚ) exReg0 [] exUpq exConsfcn exCostfcn
        exResLeg exRawQ).2.xr = none ∧
    (postSolveCorrector true false true (0 : ℚ) exReg0 [] exUpq exConsfcn exCostfcn
        exResLeg exRawQ).2.pimul = none ∧
    (postSolveCorrector true false true (0 : ℚ) exReg0 [] exUpq exConsfcn exCostfcn
        exResLeg exRawQ).2.info = none ∧
    (postSolveCorrector true false true (0 : ℚ) exReg0 [] exUpq exConsfcn exCostfcn
        exResLeg exRawQ).2.dg = some [1] ∧
    (postSolveCorrector true false true (0 : ℚ) exReg0 [] exUpq exConsfcn exCostfcn
        exResLeg exRawQ).2.g = some [2] ∧
    (postSolveCorrector true false true (0 : ℚ) exReg0 [] exUpq exConsfcn exCostfcn
        exResLeg exRawQ).2.df = some (exCostfcn exResLeg.x).1 ∧
    (postSolveCorrector true false true (0 : ℚ) exReg0 [] exUpq exConsfcn exCostfcn
        exResLeg exRawQ).2.d2f = some (exCostfcn exResLeg.x).2 :=
  corrector_raw_rebuild true (0 : ℚ) exReg0 [] exUpq exConsfcn exCostfcn exResLeg exRawQ
    [1] [2] rfl rfl

/-- C4: after the corrector runs on a successful AC solve, every generator
row's VG entry in the returned gen table equals the VM entry of the bus row it
is connected to, the bus row index being the generator's GEN_BUS column value
truncated to an integer; the external update_mupq routine is assumed (per the
spec) to write only the reactive/real-power multiplier columns of gen, hence
to preserve the VG column. -/
theorem corrector_voltage_copyback {α : Type} [LinearOrderedField α] [FloorRing α]
    (rrd : Bool) (piV : α) (ll : BlockReg) (iang : List Nat)
    (upq : Mat α → List α → List α → Mat α) (consfcn costfcn : List α → List α × List α)
    (res : Results α) (raw : RawRec α) (i : Nat)
    (hupq : ∀ g muh mul r, upq g muh mul r VG = g r VG) :
    (postSolveCorrector true false rrd piV ll iang upq consfcn costfcn res raw).1.gen i VG =
      res.bus (truncToInt (res.gen i GEN_BUS)).toNat VM := by
  by_cases hang : 0 < ll.N "ang" <;> by_cases hpq : 0 < ll.N "PQh" ∨ 0 < ll.N "PQl" <;>
    simp [postSolveCorrector, angStep, hang, hpq, hupq, copyVB]

/-- C4 witness: the voltage copy-back theorem applied at a concrete successful
AC invocation with the identity update_mupq stand-in. -/
theorem corrector_voltage_copyback_wit :
    (postSolveCorrector true false false (0 : ℚ) exReg0 [] exUpq exConsfcn exCostfcn
        exResultsQ exRawQ).1.gen 0 VG =
      exResultsQ.bus (truncToInt (exResultsQ.gen 0 GEN_BUS)).toNat VM :=
  corrector_voltage_copyback false (0 : ℚ) exReg0 [] exUpq exConsfcn exCostfcn
    exResultsQ exRawQ 0 (fun _ _ _ _ => rfl)

lemma angScaled_length {α : Type} [LinearOrderedField α] (piV : α) (ll : BlockReg)
    (mu : List α) (hb : ll.iN "ang" ≤ mu.length) :
    (angScaled piV ll mu).length = ll.N "ang" := by
  unfold angScaled
  rw [List.length_map, pySlice_length mu _ _ hb]
  rfl

lemma angScaled_getD {α : Type} [LinearOrderedField α] (piV : α) (ll : BlockReg)
    (mu : List α) (j : Nat) (hb : ll.iN "ang" ≤ mu.length) (hj : j < ll.N "ang") (d : α) :
    (angScaled piV ll mu).getD j d = mu.getD (ll.i1 "ang" + j) 0 * piV / 180 := by
  unfold angScaled
  have hj2 : j < ll.iN "ang" - ll.i1 "ang" := hj
  have hjlen : j < (pySlice mu (ll.i1 "ang") (ll.iN "ang")).length := by
    rw [pySlice_length mu _ _ hb]
    exact hj2
  rw [getD_map_lt _ _ j hjlen d 0, getD_pySlice mu _ _ j hj2 0]

lemma angStep_entries {α : Type} [LinearOrderedField α] (piV : α) (ll : BlockReg)
    (iang : List Nat) (res : Results α) (j : Nat)
    (hnd : iang.Nodup) (hj : j < iang.length) (hlen : iang.length = ll.N "ang")
    (hbl : ll.iN "ang" ≤ res.muLinL.length) (hbu : ll.iN "ang" ≤ res.muLinU.length)
    (hang : 0 < ll.N "ang") :
    (angStep piV ll iang res).branch (iang.getD j 0) MU_ANGMIN =
      res.muLinL.getD (ll.i1 "ang" + j) 0 * piV / 180 ∧
    (angStep piV ll iang res).branch (iang.getD j 0) MU_ANGMAX =
      res.muLinU.getD (ll.i1 "ang" + j) 0 * piV / 180 := by
  have hj2 : j < ll.N "ang" := hlen ▸ hj
  have hlen1 : iang.length ≤ (angScaled piV ll res.muLinL).length := by
    rw [angScaled_length piV ll res.muLinL hbl]
    omega
  have hlen2 : iang.length ≤ (angScaled piV ll res.muLinU).length := by
    rw [angScaled_length piV ll res.muLinU hbu]
    omega
  unfold angStep
  rw [if_pos hang]
  constructor
  · show matAssign (matAssign res.branch iang MU_ANGMIN (angScaled piV ll res.muLinL))
        iang MU_ANGMAX (angScaled piV ll res.muLinU) (iang.getD j 0) MU_ANGMIN = _
    rw [matAssign_out _ _ _ _ _ _ (Or.inr (show MU_ANGMIN ≠ MU_ANGMAX by decide))]
    rw [matAssign_get iang (angScaled piV ll res.muLinL) res.branch MU_ANGMIN j
        (res.muLinL.getD (ll.i1 "ang" + j) 0 * piV / 180) hnd hj hlen1]
    exact angScaled_getD piV ll res.muLinL j hbl hj2 _
  · show matAssign (matAssign res.branch iang MU_ANGMIN (angScaled piV ll res.muLinL))
        iang MU_ANGMAX (angScaled piV ll res.muLinU) (iang.getD j 0) MU_ANGMAX = _
    rw [matAssign_get iang (angScaled piV ll res.muLinU) _ MU_ANGMAX j
        (res.muLinU.getD (ll.i1 "ang" + j) 0 * piV / 180) hnd hj hlen2]
    exact angScaled_getD piV ll res.muLinU j hbu hj2 _

lemma angStep_branch_congr {α : Type} [LinearOrderedField α] (piV : α) (ll : BlockReg)
    (iang : List Nat) (r1 r2 : Results α)
    (hb : r1.branch = r2.branch) (hl : r1.muLinL = r2.muLinL) (hu : r1.muLinU = r2.muLinU) :
    (angStep piV ll iang r1).branch = (angStep piV ll iang r2).branch := by
  unfold angStep
  by_cases hang : 0 < ll.N "ang"
  · rw [if_pos hang, if_pos hang]
    show matAssign (matAssign r1.branch iang MU_ANGMIN (angScaled piV ll r1.muLinL)) iang
        MU_ANGMAX (angScaled piV ll r1.muLinU) =
      matAssign (matAssign r2.branch iang MU_ANGMIN (angScaled piV ll r2.muLinL)) iang
        MU_ANGMAX (angScaled piV ll r2.muLinU)
    rw [hb, hl, hu]
  · rw [if_neg hang, if_neg hang]
    exact hb

/-- C8: for every successful solve whose ang linear-constraint block has
nonzero width, the corrector sets the branch table's MU_ANGMIN / MU_ANGMAX
entries at the j-th side-channel row to exactly the j-th lower / upper flat
multipliers of the ang range scaled by Real.pi / 180, and this unit scale is
reversed by dividing back (multiplying by 180 / Real.pi); when the ang block
has zero width the branch table is untouched. -/
theorem corrector_angle_mu_scale (success dc rrd : Bool) (ll : BlockReg) (iang : List Nat)
    (upq : Mat ℝ → List ℝ → List ℝ → Mat ℝ) (consfcn costfcn : List ℝ → List ℝ × List ℝ)
    (res : Results ℝ) (raw : RawRec ℝ) (j : Nat)
    (hs : success = true) (hnd : iang.Nodup) (hj : j < iang.length)
    (hlen : iang.length = ll.N "ang")
    (hbl : ll.iN "ang" ≤ res.muLinL.length) (hbu : ll.iN "ang" ≤ res.muLinU.length) :
    (0 < ll.N "ang" →
      (postSolveCorrector success dc rrd Real.pi ll iang upq consfcn costfcn res raw).1.branch
          (iang.getD j 0) MU_ANGMIN =
        res.muLinL.getD (ll.i1 "ang" + j) 0 * Real.pi / 180 ∧
      (postSolveCorrector success dc rrd Real.pi ll iang upq consfcn costfcn res raw).1.branch
          (iang.getD j 0) MU_ANGMAX =
        res.muLinU.getD (ll.i1 "ang" + j) 0 * Real.pi / 180 ∧
      res.muLinL.getD (ll.i1 "ang" + j) 0 * Real.pi / 180 * 180 / Real.pi =
        res.muLinL.getD (ll.i1 "ang" + j) 0 ∧
      res.muLinU.getD (ll.i1 "ang" + j) 0 * Real.pi / 180 * 180 / Real.pi =
        res.muLinU.getD (ll.i1 "ang" + j) 0) ∧
    (ll.N "ang" = 0 →
      (postSolveCorrector success dc rrd Real.pi ll iang upq consfcn costfcn res raw).1.branch =
        res.branch) := by
  subst hs
  have hred : (postSolveCorrector true dc rrd Real.pi ll iang upq consfcn costfcn res raw).1.branch
      = (angStep Real.pi ll iang res).branch := by
    cases dc <;> by_cases hpq : 0 < ll.N "PQh" ∨ 0 < ll.N "PQl" <;>
      · simp only [postSolveCorrector]
        simp [hpq]
        exact angStep_branch_congr Real.pi ll iang _ res rfl rfl rfl
  constructor
  · intro hang
    obtain ⟨h1, h2⟩ := angStep_entries Real.pi ll iang res j hnd hj hlen hbl hbu hang
    have hpi : Real.pi ≠ 0 := Real.pi_ne_zero
    refine ⟨?_, ?_, ?_, ?_⟩
    · rw [hred]
      exact h1
    · rw [hred]
      exact h2
    · field_simp
    · field_simp
  · intro hang0
    rw [hred]
    unfold angStep
    rw [if_neg (by omega)]

/-- Concrete registry whose ang block has width 1, for the angle witness. -/
def exRegAng : BlockReg :=
  ⟨["ang"], fun _ => 0, fun _ => 1⟩

/-- Concrete real-valued results record for the angle witness. -/
def exResR : Results ℝ :=
  ⟨fun _ _ => 0, fun _ _ => 0, fun _ _ => 0, [], [], [], [1], [2], [], [], none⟩

/-- Concrete real-valued update_mupq stand-in. -/
def exUpqR : Mat ℝ → List ℝ → List ℝ → Mat ℝ :=
  fun g _ _ => g

/-- Concrete real-valued external evaluator stand-in. -/
def exConsR : List ℝ → List ℝ × List ℝ :=
  fun _ => ([], [])

/-- Concrete real-valued raw record. -/
def exRawR : RawRec ℝ :=
  RawRec.emptyRaw

/-- C8 witness: the angle-multiplier theorem applied at a concrete successful
AC invocation whose ang block is [0, 1) with side-channel row 2 and dual
vectors [1] and [2]. -/
theorem corrector_angle_mu_scale_wit :
    (0 < exRegAng.N "ang" →
      (postSolveCorrector true false false Real.pi exRegAng [2] exUpqR exConsR exConsR
          exResR exRawR).1.branch (([2] : List Nat).getD 0 0) MU_ANGMIN =
        exResR.muLinL.getD (exRegAng.i1 "ang" + 0) 0 * Real.pi / 180 ∧
      (postSolveCorrector true false false Real.pi exRegAng [2] exUpqR exConsR exConsR
          exResR exRawR).1.branch (([2] : List Nat).getD 0 0) MU_ANGMAX =
        exResR.muLinU.getD (exRegAng.i1 "ang" + 0) 0 * Real.pi / 180 ∧
      exResR.muLinL.getD (exRegAng.i1 "ang" + 0) 0 * Real.pi / 180 * 180 / Real.pi =
        exResR.muLinL.getD (exRegAng.i1 "ang" + 0) 0 ∧
      exResR.muLinU.getD (exRegAng.i1 "ang" + 0) 0 * Real.pi / 180 * 180 / Real.pi =
        exResR.muLinU.getD (exRegAng.i1 "ang" + 0) 0) ∧
    (exRegAng.N "ang" = 0 →
      (postSolveCorrector true false false Real.pi exRegAng [2] exUpqR exConsR exConsR
          exResR exRawR).1.branch = exResR.branch) :=
  corrector_angle_mu_scale true false false exRegAng [2] exUpqR exConsR exConsR exResR exRawR
    0 rfl (by decide) (by decide) (by decide) (by decide) (by decide)

/-- C3 counterexample: a returning invocation whose returned raw exposes no
algorithm code.  At a concrete successful AC solve (code 560) the stamping
step of lines 99-100 does stamp the resolved code into raw, but with
RETURN_RAW_DER set and legacy derivative fields in results the rebuild of line
118 replaces raw by a fresh dict whose output entry — and with it the
algorithm-code stamp — is gone, and with an empty pwl1 the dimension patch of
lines 192-203 is a no-op, so the call returns that raw: the returned raw
carries no algorithm entry, contradicting the claim. -/
theorem stampAlg_discarded_cex :
    stampAlg exRawQ 560 = Except.ok exRawStamped ∧
    algEntryOf exRawStamped = some (AlgVal.code 560) ∧
    algEntryOf (postSolveCorrector true false true (0 : ℚ) exReg0 [] exUpq exConsfcn exCostfcn
      exResLeg exRawStamped).2 = none ∧
    pwlPatch ([] : List Nat) 560 false exReg0 ([] : List ℚ) ([] : List ℚ) = ([], []) := by
  refine ⟨rfl, rfl, ?_, rfl⟩
  rfl
